import Mathlib

/-!
Verification of the CTAP2 large-blob array engine (`src/largeblob.c`).

The C code is shallowly embedded: byte buffers become `List Nat` (each
entry < 256 where it matters), CBOR items become an inductive type
mirroring the libcbor item shapes the code inspects, and the external
collaborators (SHA-256, AES-GCM, compression, the CBOR loader, the
transport) become function parameters, since they live outside this
repository and are specified by contract only.
-/

/-- Host-level constants.  `SIZE_MAX` on the LP64 hosts the library targets. -/
def SIZE_MAX : Nat := 2 ^ 64 - 1

/-- The C constant `UINT32_MAX`. -/
def UINT32_MAX : Nat := 2 ^ 32 - 1

/-- Modelled from the spec: the buffer cap `FIDO_MAXMSG` from `fido.h`
(not under `src/`); the spec calls it the buffer cap of the implementation. -/
def FIDO_MAXMSG : Nat := 2048

/-- Modelled from the spec: "the single-byte command identifier for
largeBlob" (`CTAP_CBOR_LARGEBLOB` from the headers, not under `src/`). -/
def CTAP_CBOR_LARGEBLOB : Nat := 0x0c

/-- Constant `LARGEBLOB_DIGEST_LENGTH` from `largeblob.c`. -/
def LARGEBLOB_DIGEST_LENGTH : Nat := 16

/-- Constant `LARGEBLOB_NONCE_LENGTH` from `largeblob.c`. -/
def LARGEBLOB_NONCE_LENGTH : Nat := 12

/-- Constant `LARGEBLOB_TAG_LENGTH` from `largeblob.c`. -/
def LARGEBLOB_TAG_LENGTH : Nat := 16

/-- Constant `SHA256_DIGEST_LENGTH` from OpenSSL (32). -/
def SHA256_DIGEST_LENGTH : Nat := 32

/-- The integer widths libcbor reports via `cbor_int_get_width`. -/
inductive IntWidth where
  | w8 | w16 | w32 | w64
deriving DecidableEq

/-- The shapes of libcbor items that `largeblob.c` distinguishes:
unsigned integers (with their width), byte strings (with their
definiteness), arrays, maps, and everything else. -/
inductive CborItem where
  | uint (w : IntWidth) (v : Nat)
  | bytes (definite : Bool) (data : List Nat)
  | array (definite : Bool) (xs : List CborItem)
  | map (definite : Bool) (kvs : List (CborItem × CborItem))
  | other

/-- The C structure `struct largeblob` from `largeblob.c`: ciphertext, nonce and
`sz` (the recorded original size). -/
structure largeblob where
  ct : List Nat
  nonce : List Nat
  sz : Nat
deriving DecidableEq

/-- The zero-initialised `largeblob_t` produced by `largeblob_new`. -/
def largeblob_new : largeblob := ⟨[], [], 0⟩

/-- Modelled from the spec: `fido_blob_decode` (in `blob.c`, not under
`src/`) copies a definite CBOR byte string into a blob and fails on any
other item; the spec says "key `1` is the byte-string fragment". -/
def fido_blob_decode : CborItem → Option (List Nat)
  | CborItem.bytes true data => some data
  | _ => none

/-- The pair `cbor_isa_uint` / `cbor_get_int`: the value of an unsigned
integer item of any width, or `none` for any other item. -/
def cbor_uint_value : CborItem → Option Nat
  | CborItem.uint _ m => some m
  | _ => none

/-- One step of `largeblob_do_decode` (the `cbor_map_iter` callback):
keys that are not 8-bit unsigned integers are ignored, key 1 stores the
ciphertext (length ≥ `LARGEBLOB_TAG_LENGTH`), key 2 the nonce (length =
`LARGEBLOB_NONCE_LENGTH`), key 3 the original size (a uint ≤ `SIZE_MAX`),
all other uint8 keys are ignored.  `none` models the callback returning
`-1`. -/
def largeblob_do_decode (blob : largeblob) (key val : CborItem) : Option largeblob :=
  match key with
  | CborItem.uint IntWidth.w8 n =>
      if n = 1 then
        match fido_blob_decode val with
        | some b => if b.length < LARGEBLOB_TAG_LENGTH then none else some { blob with ct := b }
        | none => none
      else if n = 2 then
        match fido_blob_decode val with
        | some b => if b.length ≠ LARGEBLOB_NONCE_LENGTH then none else some { blob with nonce := b }
        | none => none
      else if n = 3 then
        match cbor_uint_value val with
        | some m => if SIZE_MAX < m then none else some { blob with sz := m }
        | none => none
      else some blob
  | CborItem.uint IntWidth.w16 _ => some blob
  | CborItem.uint IntWidth.w32 _ => some blob
  | CborItem.uint IntWidth.w64 _ => some blob
  | CborItem.bytes _ _ => some blob
  | CborItem.array _ _ => some blob
  | CborItem.map _ _ => some blob
  | CborItem.other => some blob

/-- Model of `cbor_map_iter` folding `largeblob_do_decode` over the map entries,
aborting as soon as the callback fails. -/
def largeblob_decode_map (blob : largeblob) : List (CborItem × CborItem) → Option largeblob
  | [] => some blob
  | (k, v) :: rest =>
      match largeblob_do_decode blob k v with
      | some b => largeblob_decode_map b rest
      | none => none

/-- Model of `largeblob_decode`: requires a definite CBOR map, iterates the
entries, then rejects the result when the ciphertext or nonce is still
empty or `sz` is still zero. -/
def largeblob_decode (item : CborItem) : Option largeblob :=
  match item with
  | CborItem.map true kvs =>
      match largeblob_decode_map largeblob_new kvs with
      | some b =>
          if b.ct = [] ∨ b.nonce = [] ∨ b.sz = 0 then none else some b
      | none => none
  | _ => none

/-- Spec-side acceptance of a single map entry, following the claim: a
key that is not an 8-bit unsigned integer, or an unrecognized small key,
is ignored (acceptable); key 1 must carry a byte string of at least 16
bytes, key 2 a byte string of exactly 12 bytes, key 3 a uint within the
host size bound. -/
def decode_entry_ok (k v : CborItem) : Bool :=
  match k with
  | CborItem.uint IntWidth.w8 n =>
      if n = 1 then
        match fido_blob_decode v with
        | some b => decide (LARGEBLOB_TAG_LENGTH ≤ b.length)
        | none => false
      else if n = 2 then
        match fido_blob_decode v with
        | some b => decide (b.length = LARGEBLOB_NONCE_LENGTH)
        | none => false
      else if n = 3 then
        match cbor_uint_value v with
        | some m => decide (m ≤ SIZE_MAX)
        | none => false
      else true
  | _ => true

/-- Does this map key denote field `n` (an 8-bit uint of value `n`)? -/
def key_is (n : Nat) (k : CborItem) : Bool :=
  match k with
  | CborItem.uint IntWidth.w8 m => decide (m = n)
  | _ => false

/-- The `origSize` remembered after iterating the entries: the last
key-3 uint value, starting from `init`. -/
def decode_sz_fold (init : Nat) (kvs : List (CborItem × CborItem)) : Nat :=
  kvs.foldl (fun acc e =>
    if key_is 3 e.1 then (cbor_uint_value e.2).getD acc else acc) init

/-- Spec-side characterization of `largeblob_decode` success, as the
claim states it: a definite CBOR map whose iteration yields a ciphertext
under key 1, a nonce under key 2, and a nonzero in-bounds `origSize`
under key 3, with every present recognized field satisfying its length
constraint and all other entries ignored. -/
def largeblob_decode_ok_spec (item : CborItem) : Bool :=
  match item with
  | CborItem.map true kvs =>
      kvs.all (fun e => decode_entry_ok e.1 e.2) &&
      kvs.any (fun e => key_is 1 e.1) &&
      kvs.any (fun e => key_is 2 e.1) &&
      decide (decode_sz_fold 0 kvs ≠ 0)
  | _ => false

/-- The size argument encoded as `sizeof(uint64_t)` little-endian bytes
(`htole64` followed by `memcpy` in `largeblob_aad`). -/
def le64 (n : Nat) : List Nat :=
  (List.range 8).map (fun i => n / 2 ^ (8 * i) % 256)

/-- The offset argument encoded as `sizeof(uint32_t)` little-endian bytes
(`htole32` followed by `memcpy` in `prepare_hmac`). -/
def le32 (n : Nat) : List Nat :=
  (List.range 4).map (fun i => n / 2 ^ (8 * i) % 256)

/-- Model of `largeblob_aad`: the ASCII bytes of "blob" followed by the size as
an 8-byte little-endian unsigned integer. -/
def largeblob_aad (size : Nat) : List Nat :=
  [0x62, 0x6c, 0x6f, 0x62] ++ le64 size

/-- Model of `largeblob_comp_enc`: compress the plaintext, seal it under the key
and a fresh nonce with AAD computed from the *plaintext* length, and
record `sz := pt.length`.  The AEAD, the compressor and the RNG-supplied
nonce are external collaborators, passed as parameters. -/
def largeblob_comp_enc
    (enc : List Nat → List Nat → List Nat → List Nat → List Nat)
    (compress : List Nat → List Nat)
    (key nonce pt : List Nat) : largeblob :=
  { ct := enc key nonce (largeblob_aad pt.length) (compress pt)
    nonce := nonce
    sz := pt.length }

/-- Model of `largeblob_pt`: the trial-decryption primitive; computes the AAD
from the recorded `sz` of the element and runs AEAD decryption (the external
`aes256_gcm_dec`, passed as parameter). -/
def largeblob_pt
    (dec : List Nat → List Nat → List Nat → List Nat → Option (List Nat))
    (key : List Nat) (blob : largeblob) : Option (List Nat) :=
  dec key blob.nonce (largeblob_aad blob.sz) blob.ct

/-- Model of `prepare_hmac`: the per-fragment HMAC input.  Fails when the offset
exceeds `UINT32_MAX` or the fragment body is missing or empty; otherwise
yields 32 bytes of `0xff`, the largeBlob command byte, a zero byte, the
4-byte little-endian offset and the SHA-256 of the body (the hash is the
external collaborator `sha256`). -/
def prepare_hmac (sha256 : List Nat → List Nat)
    (offset : Nat) (data : List Nat) : Option (List Nat) :=
  if UINT32_MAX < offset then none
  else if data = [] then none
  else some (List.replicate 32 0xff ++ [CTAP_CBOR_LARGEBLOB, 0x00] ++
             le32 offset ++ sha256 data)

/-- Model of `max_fragment_length`: the advertised maximum message size, capped
at `SIZE_MAX` and `FIDO_MAXMSG`, minus the 64-byte envelope reserve
(0 when the cap does not exceed 64). -/
def max_fragment_length (maxmsgsize : Nat) : Nat :=
  let m1 := min maxmsgsize SIZE_MAX
  let m2 := min m1 FIDO_MAXMSG
  if 64 < m2 then m2 - 64 else 0

/-- Model of `largeblob_array_digest`: the leading `LARGEBLOB_DIGEST_LENGTH`
bytes of SHA-256 over the data; fails on an empty buffer. -/
def largeblob_array_digest (sha256 : List Nat → List Nat)
    (data : List Nat) : Option (List Nat) :=
  if data = [] then none
  else some ((sha256 data).take LARGEBLOB_DIGEST_LENGTH)

/-- Model of `validate_largeblob_array`: `true` iff the buffer is longer than 16
bytes and its trailing 16 bytes equal the leading 16 bytes of SHA-256
over the rest (the `timingsafe_bcmp` returning 0). -/
def validate_largeblob_array (sha256 : List Nat → List Nat)
    (b : List Nat) : Bool :=
  if b.length ≤ LARGEBLOB_DIGEST_LENGTH then false
  else
    match largeblob_array_digest sha256 (b.take (b.length - LARGEBLOB_DIGEST_LENGTH)) with
    | none => false
    | some d => decide (d = b.drop (b.length - LARGEBLOB_DIGEST_LENGTH))

/-- Model of `largeblob_array_load` as written in this copy of the source: it
refuses buffers shorter than `SHA256_DIGEST_LENGTH` (32), strips 32
trailing bytes, hands the rest to the external CBOR loader `cload`, and
accepts only a definite array. -/
def largeblob_array_load (cload : List Nat → Option CborItem)
    (bytes : List Nat) : Option CborItem :=
  if bytes.length < SHA256_DIGEST_LENGTH then none
  else
    match cload (bytes.take (bytes.length - SHA256_DIGEST_LENGTH)) with
    | none => none
    | some item =>
        match item with
        | CborItem.array true xs => some (CborItem.array true xs)
        | _ => none

/-- The tail of `largeblob_array_get_wait`: once the fragments are
assembled into `arr`, validate the digest; on success parse with
`largeblob_array_load`, otherwise synthesize an empty definite array. -/
def largeblob_array_get_result (sha256 : List Nat → List Nat)
    (cload : List Nat → Option CborItem) (arr : List Nat) : Option CborItem :=
  if validate_largeblob_array sha256 arr then largeblob_array_load cload arr
  else some (CborItem.array true [])

/-- The fragment loop of `largeblob_array_get_wait`, over the sequence
of fragment replies the authenticator produces: each consumed reply is
one transmit round (`largeblob_array_get_tx` + `_rx`); the loop
continues exactly while `last == maxlen`.  Returns the number of rounds
and the assembled bytes, or `none` when the replies run out while the
loop still wants more (a transport error). -/
def fetch_loop (maxlen : Nat) : List (List Nat) → Option (Nat × List Nat)
  | [] => none
  | frag :: rest =>
      if frag.length = maxlen then
        match fetch_loop maxlen rest with
        | some (n, a) => some (n + 1, frag ++ a)
        | none => none
      else some (1, frag)

/-- The fetch loop as the claim words it: a further read is issued
exactly until the latest fragment is *shorter* than the requested count
(so it would continue on a fragment longer than requested). -/
def fetch_loop_claim (maxlen : Nat) : List (List Nat) → Option (Nat × List Nat)
  | [] => none
  | frag :: rest =>
      if maxlen ≤ frag.length then
        match fetch_loop_claim maxlen rest with
        | some (n, a) => some (n + 1, frag ++ a)
        | none => none
      else some (1, frag)

/-- Success of `prepare_hmac` depends only on the offset and the body
length: offset within `UINT32_MAX` and a non-empty body. -/
def prepare_hmac_ok (offset len : Nat) : Bool :=
  !decide (UINT32_MAX < offset) && !decide (len = 0)

/-- Model of `largeblob_array_set_tx` for one fragment: with a PIN/UV token the
HMAC preamble is built first and its failure aborts with an internal
error *before* `fido_tx`; the `ok` value records the transmitted
fragment as (offset, length). -/
def largeblob_array_set_tx (sha256 : List Nat → List Nat) (hasToken : Bool)
    (offset : Nat) (frag : List Nat) : Except Unit (Nat × Nat) :=
  if hasToken then
    match prepare_hmac sha256 offset frag with
    | none => Except.error ()
    | some _ => Except.ok (offset, frag.length)
  else Except.ok (offset, frag.length)

/-- The body loop of `largeblob_array_set_wait`, tracked at the level of
fragment offsets and lengths.  `fuel` bounds the recursion; it is
adequate whenever `fuel ≥ cbor_len - offset` and `maxlen > 0`.  Each
produced pair is one transmit round (fragment send + status receive);
`Except.error` models the internal error raised when the HMAC preamble
cannot be built for an authorized fragment. -/
def set_loop_aux (maxlen : Nat) (hasToken : Bool) (cbor_len : Nat) :
    Nat → Nat → Except Unit (List (Nat × Nat))
  | _, 0 => Except.ok []
  | offset, fuel + 1 =>
      if offset < cbor_len then
        let len := min maxlen (cbor_len - offset)
        if hasToken && !prepare_hmac_ok offset len then Except.error ()
        else
          match set_loop_aux maxlen hasToken cbor_len (offset + len) fuel with
          | Except.ok rest => Except.ok ((offset, len) :: rest)
          | Except.error e => Except.error e
      else Except.ok []

/-- Model of `largeblob_array_set_wait`, abstracted to the sequence of transmit
rounds: serialization failure and a zero chunk length abort; the body is
sent in maximal chunks; the final round carries the 16-byte digest at
offset `cbor_len`. -/
def largeblob_array_set_wait_model (maxlen cbor_len : Nat) (hasToken : Bool) :
    Except Unit (List (Nat × Nat)) :=
  if maxlen = 0 then Except.error ()
  else if cbor_len = 0 ∨ SIZE_MAX - LARGEBLOB_DIGEST_LENGTH < cbor_len then Except.error ()
  else
    match set_loop_aux maxlen hasToken cbor_len 0 cbor_len with
    | Except.error e => Except.error e
    | Except.ok body =>
        if hasToken && !prepare_hmac_ok cbor_len LARGEBLOB_DIGEST_LENGTH then
          Except.error ()
        else Except.ok (body ++ [(cbor_len, LARGEBLOB_DIGEST_LENGTH)])

/-- Ceiling division on naturals. -/
def ceil_div (a b : Nat) : Nat := (a + b - 1) / b

/-- Does this array element match the key: `largeblob_decode` succeeds
and the trial decryption `largeblob_pt` succeeds?  The AEAD outcome is
abstracted into the predicate `p` on the decoded element. -/
def element_matches (p : largeblob → Bool) (item : CborItem) : Bool :=
  match largeblob_decode item with
  | some b => p b
  | none => false

/-- The loop of `largeblob_array_find`: the index of the first element
that decodes and opens; `none` models `FIDO_ERR_NOTFOUND`. -/
def largeblob_array_find (p : largeblob → Bool) : List CborItem → Option Nat
  | [] => none
  | x :: xs =>
      if element_matches p x then some 0
      else (largeblob_array_find p xs).map (fun n => n + 1)

/-- Model of `largeblob_array_remove`: drop the found index, or leave the array
unchanged when the key is not found (the source treats not-found as
removed). -/
def largeblob_array_remove (p : largeblob → Bool) (arr : List CborItem) : List CborItem :=
  match largeblob_array_find p arr with
  | some i => arr.eraseIdx i
  | none => arr

/-- Model of `largeblob_array_insert`: replace the found index, or append when
the key is not found. -/
def largeblob_array_insert (p : largeblob → Bool) (arr : List CborItem)
    (blob : CborItem) : List CborItem :=
  match largeblob_array_find p arr with
  | some i => arr.set i blob
  | none => arr ++ [blob]

/-- The number of elements of the array that decode and open under the
key. -/
def match_count (p : largeblob → Bool) (arr : List CborItem) : Nat :=
  arr.countP (element_matches p)

/-- The status codes the public operations surface. -/
inductive FidoStatus where
  | ok
  | invalid_argument
  | internal
  | notfound
deriving DecidableEq

/-- Argument validation of `fido_dev_largeblob_get`: a null output blob,
a null key pointer or a key length other than 32 yield
`FIDO_ERR_INVALID_ARGUMENT`; otherwise the operation proceeds to the
device interaction, abstracted as `rest`. -/
def fido_dev_largeblob_get (blobNull keyNull : Bool) (key_len : Nat)
    (rest : FidoStatus) : FidoStatus :=
  if blobNull ∨ keyNull ∨ key_len ≠ 32 then FidoStatus.invalid_argument
  else rest

/-- Argument validation of `fido_dev_largeblob_put`: a null or empty
blob, a null key pointer or a key length other than 32 yield
`FIDO_ERR_INVALID_ARGUMENT`; otherwise the operation proceeds to the
device interaction, abstracted as `rest`. -/
def fido_dev_largeblob_put (blobNull blobEmpty keyNull : Bool) (key_len : Nat)
    (rest : FidoStatus) : FidoStatus :=
  if blobNull ∨ blobEmpty ∨ keyNull ∨ key_len ≠ 32 then FidoStatus.invalid_argument
  else rest

/-- Argument validation of `fido_dev_largeblob_remove`: a null key
pointer or a key length other than 32 yield
`FIDO_ERR_INVALID_ARGUMENT`; otherwise the operation proceeds to the
device interaction, abstracted as `rest`. -/
def fido_dev_largeblob_remove (keyNull : Bool) (key_len : Nat)
    (rest : FidoStatus) : FidoStatus :=
  if keyNull ∨ key_len ≠ 32 then FidoStatus.invalid_argument
  else rest

/-- A concrete well-formed array element: 16-byte ciphertext, 12-byte
nonce, original size 5. -/
def eW : CborItem :=
  CborItem.map true
    [(CborItem.uint IntWidth.w8 1, CborItem.bytes true (List.replicate 16 0)),
     (CborItem.uint IntWidth.w8 2, CborItem.bytes true (List.replicate 12 0)),
     (CborItem.uint IntWidth.w8 3, CborItem.uint IntWidth.w8 5)]

/-- An AEAD outcome under which every decoded element opens; this is
what trial decryption yields on an array holding copies of one element
sealed under the key being used. -/
def always_opens : largeblob → Bool := fun _ => true

/-- A stand-in for the external SHA-256 collaborator in witnesses: some
fixed 32-byte digest. -/
def sha256_stub : List Nat → List Nat := fun _ => List.range 32

/-- A stand-in for the external CBOR loader in witnesses. -/
def cbor_load_stub : List Nat → Option CborItem := fun _ => none

/-- C5: for every element, the AEAD additional-authenticated-data is
exactly 12 bytes, the four ASCII bytes of "blob" followed by `origSize`
as an 8-byte little-endian unsigned integer; sealing derives the AAD
from the uncompressed plaintext length `pt.len` (not the compressed
length) and records that length in `sz`, so sealing with `pt.len` and
opening with the recorded `origSize` use identical AAD bytes. -/
theorem largeblob_aad_bytes
    (enc : List Nat → List Nat → List Nat → List Nat → List Nat)
    (compress : List Nat → List Nat)
    (dec : List Nat → List Nat → List Nat → List Nat → Option (List Nat))
    (key nonce pt : List Nat) (s : Nat) :
    (largeblob_aad s).length = 12 ∧
    largeblob_aad s = [0x62, 0x6c, 0x6f, 0x62] ++ le64 s ∧
    (le64 s).length = 8 ∧
    (largeblob_comp_enc enc compress key nonce pt).sz = pt.length ∧
    (largeblob_comp_enc enc compress key nonce pt).ct
      = enc key nonce (largeblob_aad pt.length) (compress pt) ∧
    largeblob_pt dec key (largeblob_comp_enc enc compress key nonce pt)
      = dec key nonce (largeblob_aad pt.length)
          (enc key nonce (largeblob_aad pt.length) (compress pt)) := by
  refine ⟨?_, rfl, ?_, rfl, rfl, rfl⟩ <;> simp [largeblob_aad, le64]

/-- C6: for every write fragment with offset at most `UINT32_MAX` and a
non-empty body, the HMAC input is exactly 70 bytes: 32 bytes of `0xff`,
the largeBlob command byte, one zero byte, the 4-byte little-endian
offset, and the 32-byte SHA-256 of the body.  `prepare_hmac` is a pure
function of `(offset, data)`, so the preamble is byte-identical across
calls. -/
theorem prepare_hmac_layout (sha256 : List Nat → List Nat)
    (offset : Nat) (data : List Nat)
    (h1 : offset ≤ UINT32_MAX) (h2 : data ≠ [])
    (h3 : (sha256 data).length = 32) :
    prepare_hmac sha256 offset data
      = some (List.replicate 32 0xff ++ [CTAP_CBOR_LARGEBLOB, 0x00] ++
              le32 offset ++ sha256 data) ∧
    (List.replicate 32 0xff ++ [CTAP_CBOR_LARGEBLOB, 0x00] ++
              le32 offset ++ sha256 data).length = 70 ∧
    (le32 offset).length = 4 := by
  have hno : ¬ UINT32_MAX < offset := Nat.not_lt.mpr h1
  refine ⟨?_, ?_, ?_⟩
  · simp [prepare_hmac, hno, h2]
  · simp [le32, h3]
  · simp [le32]

/-- Witness for C6 at offset 5 and body `[1, 2, 3]`. -/
theorem prepare_hmac_layout_witness :
    prepare_hmac sha256_stub 5 [1, 2, 3]
      = some (List.replicate 32 0xff ++ [CTAP_CBOR_LARGEBLOB, 0x00] ++
              le32 5 ++ sha256_stub [1, 2, 3]) ∧
    (List.replicate 32 0xff ++ [CTAP_CBOR_LARGEBLOB, 0x00] ++
              le32 5 ++ sha256_stub [1, 2, 3]).length = 70 ∧
    (le32 5).length = 4 :=
  prepare_hmac_layout sha256_stub 5 [1, 2, 3]
    (by norm_num [UINT32_MAX]) (by simp) (by simp [sha256_stub])

/-- C9: each public operation rejects a null required pointer or a key
length other than 32 (and, for put, an empty blob) with
`FIDO_ERR_INVALID_ARGUMENT`; the result is produced before and
independently of any device interaction (the quantified `rest`). -/
theorem largeblob_public_arg_validation
    (blobNull blobEmpty keyNull : Bool) (key_len : Nat) :
    ((blobNull = true ∨ keyNull = true ∨ key_len ≠ 32) →
      ∀ rest, fido_dev_largeblob_get blobNull keyNull key_len rest
        = FidoStatus.invalid_argument) ∧
    ((blobNull = true ∨ blobEmpty = true ∨ keyNull = true ∨ key_len ≠ 32) →
      ∀ rest, fido_dev_largeblob_put blobNull blobEmpty keyNull key_len rest
        = FidoStatus.invalid_argument) ∧
    ((keyNull = true ∨ key_len ≠ 32) →
      ∀ rest, fido_dev_largeblob_remove keyNull key_len rest
        = FidoStatus.invalid_argument) := by
  refine ⟨fun h rest => ?_, fun h rest => ?_, fun h rest => ?_⟩
  · simp only [fido_dev_largeblob_get]; rw [if_pos h]
  · simp only [fido_dev_largeblob_put]; rw [if_pos h]
  · simp only [fido_dev_largeblob_remove]; rw [if_pos h]

/-- Witness for C9: a null output blob on get, a 31-byte key on put, a
null key on remove. -/
theorem largeblob_public_arg_validation_witness :
    fido_dev_largeblob_get true false 32 FidoStatus.ok
      = FidoStatus.invalid_argument ∧
    fido_dev_largeblob_put false false false 31 FidoStatus.ok
      = FidoStatus.invalid_argument ∧
    fido_dev_largeblob_remove true 32 FidoStatus.ok
      = FidoStatus.invalid_argument :=
  ⟨(largeblob_public_arg_validation true false false 32).1
      (Or.inl rfl) FidoStatus.ok,
   (largeblob_public_arg_validation false false false 31).2.1
      (by norm_num) FidoStatus.ok,
   (largeblob_public_arg_validation false false true 32).2.2
      (Or.inl rfl) FidoStatus.ok⟩

/-- C10: with a PIN/UV auth token, a fragment whose offset exceeds
`UINT32_MAX` or whose body is empty makes `largeblob_array_set_tx` fail
(the HMAC preamble cannot be built) before the fragment is transmitted;
consequently an authorized write whose serialized body exceeds `2^32`
bytes always fails, whatever the advertised message size. -/
theorem largeblob_authorized_write_offset_bound
    (sha256 : List Nat → List Nat) (offset : Nat) (frag : List Nat)
    (M L : Nat)
    (h1 : UINT32_MAX < offset ∨ frag = []) (h2 : 2 ^ 32 < L) :
    largeblob_array_set_tx sha256 true offset frag = Except.error () ∧
    largeblob_array_set_wait_model (max_fragment_length M) L true
      = Except.error () := by
  constructor
  · rcases h1 with h | h
    · simp [largeblob_array_set_tx, prepare_hmac, h]
    · subst h
      simp [largeblob_array_set_tx, prepare_hmac]
  · have hU : UINT32_MAX < L := by
      have : UINT32_MAX < 2 ^ 32 := by norm_num [UINT32_MAX]
      omega
    unfold largeblob_array_set_wait_model
    by_cases hm : max_fragment_length M = 0
    · simp [hm]
    · rw [if_neg hm]
      by_cases hs : L = 0 ∨ SIZE_MAX - LARGEBLOB_DIGEST_LENGTH < L
      · rw [if_pos hs]
      · rw [if_neg hs]
        cases hloop : set_loop_aux (max_fragment_length M) true L 0 L with
        | error e => rfl
        | ok body =>
            have hok : prepare_hmac_ok L LARGEBLOB_DIGEST_LENGTH = false := by
              simp [prepare_hmac_ok, hU]
            simp [hok]

/-- Witness for C10: offset `2^32`, a one-byte fragment, and a body of
`2^32 + 1` bytes with the default advertised message size. -/
theorem largeblob_authorized_write_offset_bound_witness :
    largeblob_array_set_tx sha256_stub true (2 ^ 32) [1] = Except.error () ∧
    largeblob_array_set_wait_model (max_fragment_length 2048) (2 ^ 32 + 1) true
      = Except.error () :=
  largeblob_authorized_write_offset_bound sha256_stub (2 ^ 32) [1] 2048
    (2 ^ 32 + 1) (Or.inl (by norm_num [UINT32_MAX])) (by norm_num)

/-- Ceiling division of zero. -/
theorem ceil_div_zero (m : Nat) : ceil_div 0 m = 0 := by
  cases m with
  | zero => rfl
  | succ k =>
      unfold ceil_div
      exact Nat.div_eq_of_lt (by omega)

/-- Ceiling division of a positive numerator by a positive denominator. -/
theorem ceil_div_of_pos (m r : Nat) (hm : 0 < m) (hr : 0 < r) :
    ceil_div r m = (r - 1) / m + 1 := by
  unfold ceil_div
  have h1 : r + m - 1 = (r - 1) + m := by omega
  rw [h1, Nat.add_div_right _ hm]

/-- Ceiling division unfolded by one chunk of size `min m r`. -/
theorem ceil_div_step (m r : Nat) (hm : 0 < m) (hr : 0 < r) :
    ceil_div (r - min m r) m + 1 = ceil_div r m := by
  rcases le_or_lt r m with h | h
  · have h1 : min m r = r := by omega
    rw [h1, Nat.sub_self, ceil_div_zero, ceil_div_of_pos m r hm hr,
        Nat.div_eq_of_lt (by omega)]
  · have h1 : min m r = m := by omega
    rw [h1, ceil_div_of_pos m (r - m) hm (by omega),
        ceil_div_of_pos m r hm hr]
    have h2 : r - 1 = (r - m - 1) + m := by omega
    rw [h2, Nat.add_div_right _ hm]

/-- The body loop with no token never fails and produces exactly
`⌈remaining / maxlen⌉` fragments, given adequate fuel. -/
theorem set_loop_aux_no_token (maxlen cbor_len : Nat) (hm : 0 < maxlen) :
    ∀ fuel offset, cbor_len - offset ≤ fuel →
      ∃ l, set_loop_aux maxlen false cbor_len offset fuel = Except.ok l ∧
           l.length = ceil_div (cbor_len - offset) maxlen := by
  intro fuel
  induction fuel with
  | zero =>
      intro offset h
      refine ⟨[], rfl, ?_⟩
      have h0 : cbor_len - offset = 0 := by omega
      rw [h0, ceil_div_zero]; rfl
  | succ fuel ih =>
      intro offset h
      by_cases ho : offset < cbor_len
      · have hmin : 0 < min maxlen (cbor_len - offset) :=
          lt_min hm (by omega)
        have hle : min maxlen (cbor_len - offset) ≤ cbor_len - offset :=
          min_le_right _ _
        obtain ⟨l, hl, hlen⟩ :=
          ih (offset + min maxlen (cbor_len - offset)) (by omega)
        refine ⟨(offset, min maxlen (cbor_len - offset)) :: l, ?_, ?_⟩
        · simp only [set_loop_aux, if_pos ho, Bool.false_and, Bool.not_false,
                     Bool.false_eq_true, if_false]
          rw [hl]
        · have hsub : cbor_len - (offset + min maxlen (cbor_len - offset))
              = (cbor_len - offset) - min maxlen (cbor_len - offset) := by omega
          rw [List.length_cons, hlen, hsub,
              ceil_div_step maxlen (cbor_len - offset) hm (by omega)]
      · refine ⟨[], ?_, ?_⟩
        · simp only [set_loop_aux, if_neg ho]
        · have h0 : cbor_len - offset = 0 := by omega
          rw [h0, ceil_div_zero]; rfl

/-- C2 counterexample: with advertised maximum message size 164 the
chunk is 100; a 10-byte serialized body takes two transmit rounds (one
body fragment plus the digest fragment), but the claimed count
`⌈(10 + 16) / 100⌉` is 1. -/
theorem largeblob_set_wait_rounds_claim_false :
    largeblob_array_set_wait_model (max_fragment_length 164) 10 false
      = Except.ok [(0, 10), (10, 16)] ∧
    ceil_div (10 + 16) (max_fragment_length 164) = 1 ∧
    ([((0 : Nat), (10 : Nat)), (10, 16)] : List (Nat × Nat)).length ≠ 1 :=
  ⟨rfl, rfl, by decide⟩

/-- C2 amended: an unauthorized write of a non-empty body `B` with a
positive chunk performs exactly `⌈|B| / chunk⌉ + 1` transmit rounds —
`⌈|B| / chunk⌉` body fragments plus one 16-byte digest fragment — where
`chunk = max_fragment_length M`. -/
theorem largeblob_set_wait_rounds (M B : Nat)
    (h1 : 0 < max_fragment_length M) (h2 : 0 < B)
    (h3 : B ≤ SIZE_MAX - LARGEBLOB_DIGEST_LENGTH) :
    ∃ l, largeblob_array_set_wait_model (max_fragment_length M) B false
           = Except.ok l ∧
         l.length = ceil_div B (max_fragment_length M) + 1 := by
  obtain ⟨l, hl, hlen⟩ :=
    set_loop_aux_no_token (max_fragment_length M) B h1 B 0 (by omega)
  refine ⟨l ++ [(B, LARGEBLOB_DIGEST_LENGTH)], ?_, ?_⟩
  · unfold largeblob_array_set_wait_model
    rw [if_neg (by omega),
        if_neg (by omega : ¬(B = 0 ∨ SIZE_MAX - LARGEBLOB_DIGEST_LENGTH < B))]
    rw [hl]
    simp
  · simp only [Nat.sub_zero] at hlen
    simp [hlen]

/-- Witness for the amended C2 at message size 164 and a 10-byte body. -/
theorem largeblob_set_wait_rounds_witness :
    ∃ l, largeblob_array_set_wait_model (max_fragment_length 164) 10 false
           = Except.ok l ∧
         l.length = ceil_div 10 (max_fragment_length 164) + 1 :=
  largeblob_set_wait_rounds 164 10 (by decide) (by decide) (by decide)

/-- C8 counterexample: with requested count `max_fragment_length 69 = 5`,
a first fragment of 6 bytes — not shorter than the request — already
terminates the loop after a single round, while the loop described by
the claim (continue until the fragment is *less than* the request,
`fetch_loop_claim`) would keep reading. -/
theorem fetch_loop_claim_false :
    fetch_loop (max_fragment_length 69) [[0, 0, 0, 0, 0, 0], [0, 0, 0, 0, 0], []]
      = some (1, [0, 0, 0, 0, 0, 0]) ∧
    ¬ (([0, 0, 0, 0, 0, 0] : List Nat).length < max_fragment_length 69) ∧
    fetch_loop_claim (max_fragment_length 69)
        [[0, 0, 0, 0, 0, 0], [0, 0, 0, 0, 0], []]
      = some (3, [0, 0, 0, 0, 0, 0, 0, 0, 0, 0, 0]) :=
  ⟨rfl, by decide, rfl⟩

/-- C8 amended: the fetch loop issues a further read request exactly
while the latest fragment length *equals* the requested count: when it
returns after `n` rounds, the first `n - 1` fragments all have exactly
the requested length, the `n`-th has a different length (shorter —
including zero-length — or longer), and the assembled array is the
concatenation of the `n` consumed fragments, whose lengths are read
from the fragments themselves. -/
theorem fetch_loop_rounds (maxlen : Nat) :
    ∀ (replies : List (List Nat)) (n : Nat) (a : List Nat),
      fetch_loop maxlen replies = some (n, a) →
      1 ≤ n ∧ n ≤ replies.length ∧
      (∀ f ∈ replies.take (n - 1), f.length = maxlen) ∧
      (replies.getD (n - 1) []).length ≠ maxlen ∧
      a = (replies.take n).flatten := by
  intro replies
  induction replies with
  | nil => intro n a h; cases h
  | cons frag rest ih =>
      intro n a h
      by_cases hf : frag.length = maxlen
      · rw [fetch_loop, if_pos hf] at h
        cases hrest : fetch_loop maxlen rest with
        | none => rw [hrest] at h; cases h
        | some p =>
            obtain ⟨m, b⟩ := p
            rw [hrest] at h
            injection h with h
            injection h with hn ha
            obtain ⟨hm1, hm2, hall, hlast, hjoin⟩ := ih m b hrest
            subst hn; subst ha
            refine ⟨by omega, by simp; omega, ?_, ?_, ?_⟩
            · have htake : (frag :: rest).take (m + 1 - 1)
                  = frag :: rest.take (m - 1) := by
                have h1 : m + 1 - 1 = (m - 1) + 1 := by omega
                rw [h1, List.take_succ_cons]
              rw [htake]
              intro f hfmem
              rcases List.mem_cons.mp hfmem with h | h
              · rw [h]; exact hf
              · exact hall f h
            · have h1 : m + 1 - 1 = (m - 1) + 1 := by omega
              rw [h1, List.getD_cons_succ]
              exact hlast
            · rw [List.take_succ_cons, List.flatten_cons, hjoin]
      · rw [fetch_loop, if_neg hf] at h
        injection h with h
        injection h with hn ha
        subst hn; subst ha
        refine ⟨le_refl 1, by simp, by simp, by simpa using hf, by simp⟩

/-- Witness for the amended C8: requested count 5, a full 5-byte
fragment then a short one; two rounds, assembling both fragments. -/
theorem fetch_loop_rounds_witness :
    1 ≤ 2 ∧ 2 ≤ ([[1, 1, 1, 1, 1], [2]] : List (List Nat)).length ∧
    (∀ f ∈ ([[1, 1, 1, 1, 1], [2]] : List (List Nat)).take (2 - 1),
        f.length = 5) ∧
    (([[1, 1, 1, 1, 1], [2]] : List (List Nat)).getD (2 - 1) []).length ≠ 5 ∧
    [1, 1, 1, 1, 1, 2]
      = (([[1, 1, 1, 1, 1], [2]] : List (List Nat)).take 2).flatten :=
  fetch_loop_rounds 5 [[1, 1, 1, 1, 1], [2]] 2 [1, 1, 1, 1, 1, 2] rfl

/-- The find loop returns `none` exactly when no element matches. -/
theorem largeblob_array_find_none (p : largeblob → Bool) :
    ∀ arr : List CborItem,
      largeblob_array_find p arr = none ↔
        ∀ x ∈ arr, element_matches p x = false := by
  intro arr
  induction arr with
  | nil => simp [largeblob_array_find]
  | cons x xs ih =>
      by_cases hx : element_matches p x = true
      · simp [largeblob_array_find, hx]
      · simp only [Bool.not_eq_true] at hx
        simp [largeblob_array_find, hx, Option.map_eq_none, ih]

/-- The find loop returns the first matching index. -/
theorem largeblob_array_find_some (p : largeblob → Bool) :
    ∀ (arr : List CborItem) (i : Nat),
      largeblob_array_find p arr = some i →
      i < arr.length ∧
      element_matches p (arr.getD i CborItem.other) = true ∧
      ∀ j, j < i → element_matches p (arr.getD j CborItem.other) = false := by
  intro arr
  induction arr with
  | nil => intro i h; cases h
  | cons x xs ih =>
      intro i h
      by_cases hx : element_matches p x = true
      · rw [largeblob_array_find, if_pos hx] at h
        injection h with h
        subst h
        exact ⟨by simp, hx, fun j hj => by omega⟩
      · rw [largeblob_array_find, if_neg hx] at h
        cases hxs : largeblob_array_find p xs with
        | none => rw [hxs] at h; cases h
        | some m =>
            rw [hxs] at h
            have hmi : i = m + 1 := by simpa using h.symm
            subst hmi
            obtain ⟨h1, h2, h3⟩ := ih m hxs
            refine ⟨by simp; omega, by simpa using h2, ?_⟩
            intro j hj
            cases j with
            | zero =>
                have hfalse : element_matches p x = false := by
                  cases hb : element_matches p x
                  · rfl
                  · exact absurd hb hx
                simpa using hfalse
            | succ j =>
                rw [List.getD_cons_succ]
                exact h3 j (by omega)

/-- Counting matches across the removal of index `i`. -/
theorem match_count_eraseIdx (p : largeblob → Bool) :
    ∀ (arr : List CborItem) (i : Nat), i < arr.length →
      match_count p arr
        = match_count p (arr.eraseIdx i)
          + (if element_matches p (arr.getD i CborItem.other) then 1 else 0) := by
  intro arr
  induction arr with
  | nil => intro i h; simp at h
  | cons x xs ih =>
      intro i h
      cases i with
      | zero =>
          simp only [List.eraseIdx_cons_zero, List.getD_cons_zero]
          rw [match_count, match_count, List.countP_cons]
      | succ i =>
          simp only [List.eraseIdx_cons_succ, List.getD_cons_succ]
          rw [match_count, match_count, List.countP_cons, List.countP_cons]
          have hlen : i < xs.length := by simpa using h
          have := ih i hlen
          rw [match_count, match_count] at this
          omega

/-- C3 counterexample: an array holding two copies of the same valid
element (both of which open under the key, as copies of one sealed
element do) — the first remove drops only the first copy, the second
remove drops the other, so remove-twice differs from remove-once. -/
theorem largeblob_array_remove_not_idempotent :
    largeblob_array_remove always_opens [eW, eW] = [eW] ∧
    largeblob_array_remove always_opens
        (largeblob_array_remove always_opens [eW, eW]) = [] ∧
    ([] : List CborItem) ≠ [eW] :=
  ⟨rfl, rfl, fun h => List.noConfusion h⟩

/-- C3 amended: remove drops the element at the first index that opens
under the key (later elements shift left by one) and is a successful
no-op when no element opens; removing twice equals removing once
whenever at most one element of the array opens under the key. -/
theorem largeblob_array_remove_spec (p : largeblob → Bool)
    (arr : List CborItem) :
    (∀ i, largeblob_array_find p arr = some i →
        largeblob_array_remove p arr = arr.eraseIdx i) ∧
    (largeblob_array_find p arr = none →
        largeblob_array_remove p arr = arr) ∧
    (match_count p arr ≤ 1 →
        largeblob_array_remove p (largeblob_array_remove p arr)
          = largeblob_array_remove p arr) := by
  refine ⟨fun i hi => by rw [largeblob_array_remove, hi],
          fun h => by rw [largeblob_array_remove, h], ?_⟩
  intro hc
  cases hfind : largeblob_array_find p arr with
  | none =>
      have h0 : largeblob_array_remove p arr = arr := by
        rw [largeblob_array_remove, hfind]
      rw [h0]
      exact h0
  | some i =>
      have h0 : largeblob_array_remove p arr = arr.eraseIdx i := by
        rw [largeblob_array_remove, hfind]
      obtain ⟨hlen, hmatch, _⟩ := largeblob_array_find_some p arr i hfind
      have hcount := match_count_eraseIdx p arr i hlen
      rw [if_pos hmatch] at hcount
      have hzero : match_count p (arr.eraseIdx i) = 0 := by omega
      have hnone : largeblob_array_find p (arr.eraseIdx i) = none := by
        rw [largeblob_array_find_none]
        intro x hm
        exact Bool.eq_false_iff.mpr
          (List.countP_eq_zero.mp hzero x hm)
      rw [h0, largeblob_array_remove, hnone]

/-- Witness for the amended C3: a one-element array whose element opens
under the key; remove drops index 0 and is idempotent there. -/
theorem largeblob_array_remove_spec_witness :
    largeblob_array_remove always_opens [eW] = [eW].eraseIdx 0 ∧
    largeblob_array_remove always_opens
        (largeblob_array_remove always_opens [eW])
      = largeblob_array_remove always_opens [eW] :=
  ⟨(largeblob_array_remove_spec always_opens [eW]).1 0 rfl,
   (largeblob_array_remove_spec always_opens [eW]).2.2 (by decide)⟩

/-- C4: insert replaces the element at the first index that opens under
the key when one exists (length unchanged) and appends at the end when
none exists (length grows by exactly one); the resulting length is
always `|A|` or `|A| + 1`.  In the embedding the find outcome is `some`
or `none` only, matching the only two non-propagating cases of the
source switch. -/
theorem largeblob_array_insert_spec (p : largeblob → Bool)
    (arr : List CborItem) (blob : CborItem) :
    (∀ i, largeblob_array_find p arr = some i →
        largeblob_array_insert p arr blob = arr.set i blob ∧
        (largeblob_array_insert p arr blob).length = arr.length ∧
        element_matches p (arr.getD i CborItem.other) = true ∧
        ∀ j, j < i → element_matches p (arr.getD j CborItem.other) = false) ∧
    (largeblob_array_find p arr = none →
        largeblob_array_insert p arr blob = arr ++ [blob] ∧
        (largeblob_array_insert p arr blob).length = arr.length + 1 ∧
        ∀ x ∈ arr, element_matches p x = false) ∧
    ((largeblob_array_insert p arr blob).length = arr.length ∨
     (largeblob_array_insert p arr blob).length = arr.length + 1) := by
  refine ⟨?_, ?_, ?_⟩
  · intro i hi
    obtain ⟨h1, h2, h3⟩ := largeblob_array_find_some p arr i hi
    have he : largeblob_array_insert p arr blob = arr.set i blob := by
      rw [largeblob_array_insert, hi]
    exact ⟨he, by rw [he, List.length_set], h2, h3⟩
  · intro hn
    have he : largeblob_array_insert p arr blob = arr ++ [blob] := by
      rw [largeblob_array_insert, hn]
    exact ⟨he, by rw [he]; simp, (largeblob_array_find_none p arr).mp hn⟩
  · cases hf : largeblob_array_find p arr with
    | some i =>
        left
        rw [largeblob_array_insert, hf, List.length_set]
    | none =>
        right
        rw [largeblob_array_insert, hf]
        simp

/-- Witness for C4: replacing the sole matching element of a
one-element array. -/
theorem largeblob_array_insert_spec_witness :
    largeblob_array_insert always_opens [eW] CborItem.other
      = [eW].set 0 CborItem.other ∧
    (largeblob_array_insert always_opens [eW] CborItem.other).length
      = [eW].length ∧
    element_matches always_opens ([eW].getD 0 CborItem.other) = true ∧
    ∀ j, j < 0 →
      element_matches always_opens ([eW].getD j CborItem.other) = false :=
  (largeblob_array_insert_spec always_opens [eW] CborItem.other).1 0 rfl

/-- Success of one decode step coincides with the spec-side acceptance
of the entry. -/
theorem do_decode_isSome (blob : largeblob) (k v : CborItem) :
    (largeblob_do_decode blob k v).isSome = decode_entry_ok k v := by
  cases k with
  | uint w n =>
      cases w with
      | w8 =>
          simp only [largeblob_do_decode, decode_entry_ok]
          by_cases h1 : n = 1
          · rw [if_pos h1, if_pos h1]
            cases hv : fido_blob_decode v with
            | none => rfl
            | some b =>
                by_cases hl : b.length < LARGEBLOB_TAG_LENGTH
                · simp [hl, Nat.not_le.mpr hl]
                · simp [hl, Nat.not_lt.mp hl]
          · rw [if_neg h1, if_neg h1]
            by_cases h2 : n = 2
            · rw [if_pos h2, if_pos h2]
              cases hv : fido_blob_decode v with
              | none => rfl
              | some b =>
                  by_cases hl : b.length = LARGEBLOB_NONCE_LENGTH
                  · simp [hl]
                  · simp [hl]
            · rw [if_neg h2, if_neg h2]
              by_cases h3 : n = 3
              · rw [if_pos h3, if_pos h3]
                cases hv : cbor_uint_value v with
                | none => rfl
                | some m =>
                    by_cases hm : SIZE_MAX < m
                    · simp [hm, Nat.not_le.mpr hm]
                    · simp [hm, Nat.not_lt.mp hm]
              · rw [if_neg h3, if_neg h3]
                rfl
      | w16 => rfl
      | w32 => rfl
      | w64 => rfl
  | bytes d data => rfl
  | array d xs => rfl
  | map d kvs => rfl
  | other => rfl

/-- Success of the decode fold coincides with spec-side acceptance of
every entry, whatever the accumulated state. -/
theorem decode_map_isSome (kvs : List (CborItem × CborItem)) :
    ∀ blob, (largeblob_decode_map blob kvs).isSome
      = kvs.all (fun e => decode_entry_ok e.1 e.2) := by
  induction kvs with
  | nil => intro blob; rfl
  | cons e rest ih =>
      intro blob
      obtain ⟨k, v⟩ := e
      rw [largeblob_decode_map]
      cases hd : largeblob_do_decode blob k v with
      | none =>
          have hstep := do_decode_isSome blob k v
          rw [hd] at hstep
          simp [List.all_cons, ← hstep]
      | some b =>
          have hstep := do_decode_isSome blob k v
          rw [hd] at hstep
          simp [List.all_cons, ← hstep, ih b]

/-- Field evolution across one successful decode step: key 1 makes the
ciphertext non-empty, key 2 the nonce, key 3 overwrites the size;
everything else leaves the state alone. -/
theorem do_decode_fields (blob : largeblob) (k v : CborItem)
    (b1 : largeblob) (h : largeblob_do_decode blob k v = some b1) :
    (b1.ct = [] ↔ (blob.ct = [] ∧ key_is 1 k = false)) ∧
    (b1.nonce = [] ↔ (blob.nonce = [] ∧ key_is 2 k = false)) ∧
    b1.sz = (if key_is 3 k then (cbor_uint_value v).getD blob.sz
             else blob.sz) := by
  cases k with
  | uint w n =>
      cases w with
      | w8 =>
          rw [largeblob_do_decode] at h
          by_cases h1 : n = 1
          · subst h1
            rw [if_pos rfl] at h
            cases hv : fido_blob_decode v with
            | none => rw [hv] at h; cases h
            | some b =>
                rw [hv] at h
                by_cases hl : b.length < LARGEBLOB_TAG_LENGTH
                · simp [hl] at h
                · simp [hl] at h
                  subst h
                  have hb : b ≠ [] := by
                    have hlen : LARGEBLOB_TAG_LENGTH ≤ b.length :=
                      Nat.not_lt.mp hl
                    intro hnil
                    rw [hnil] at hlen
                    simp [LARGEBLOB_TAG_LENGTH] at hlen
                  exact ⟨by simp [key_is, hb], by simp [key_is],
                         by simp [key_is]⟩
          · rw [if_neg h1] at h
            by_cases h2 : n = 2
            · subst h2
              rw [if_pos rfl] at h
              cases hv : fido_blob_decode v with
              | none => rw [hv] at h; cases h
              | some b =>
                  rw [hv] at h
                  by_cases hl : b.length = LARGEBLOB_NONCE_LENGTH
                  · simp [hl] at h
                    subst h
                    have hb : b ≠ [] := by
                      intro hnil
                      rw [hnil] at hl
                      simp [LARGEBLOB_NONCE_LENGTH] at hl
                    exact ⟨by simp [key_is], by simp [key_is, hb],
                           by simp [key_is]⟩
                  · simp [hl] at h
            · rw [if_neg h2] at h
              by_cases h3 : n = 3
              · subst h3
                rw [if_pos rfl] at h
                cases hv : cbor_uint_value v with
                | none => rw [hv] at h; cases h
                | some m =>
                    rw [hv] at h
                    by_cases hm : SIZE_MAX < m
                    · simp [hm] at h
                    · simp [hm] at h
                      subst h
                      exact ⟨by simp [key_is], by simp [key_is],
                             by simp [key_is, hv]⟩
              · rw [if_neg h3] at h
                injection h with h
                subst h
                exact ⟨by simp [key_is, h1], by simp [key_is, h2],
                       by simp [key_is, h3]⟩
      | w16 =>
          rw [largeblob_do_decode] at h
          injection h with h
          subst h
          exact ⟨by simp [key_is], by simp [key_is], by simp [key_is]⟩
      | w32 =>
          rw [largeblob_do_decode] at h
          injection h with h
          subst h
          exact ⟨by simp [key_is], by simp [key_is], by simp [key_is]⟩
      | w64 =>
          rw [largeblob_do_decode] at h
          injection h with h
          subst h
          exact ⟨by simp [key_is], by simp [key_is], by simp [key_is]⟩
  | bytes d data =>
      rw [largeblob_do_decode] at h
      injection h with h
      subst h
      exact ⟨by simp [key_is], by simp [key_is], by simp [key_is]⟩
  | array d xs =>
      rw [largeblob_do_decode] at h
      injection h with h
      subst h
      exact ⟨by simp [key_is], by simp [key_is], by simp [key_is]⟩
  | map d kvs =>
      rw [largeblob_do_decode] at h
      injection h with h
      subst h
      exact ⟨by simp [key_is], by simp [key_is], by simp [key_is]⟩
  | other =>
      rw [largeblob_do_decode] at h
      injection h with h
      subst h
      exact ⟨by simp [key_is], by simp [key_is], by simp [key_is]⟩

/-- Field evolution across the whole decode fold: the ciphertext (resp.
nonce) ends up non-empty exactly when it started non-empty or some
key-1 (resp. key-2) entry occurred, and the final size is the fold of
the key-3 entries. -/
theorem decode_map_fields (kvs : List (CborItem × CborItem)) :
    ∀ blob b, largeblob_decode_map blob kvs = some b →
      (b.ct = [] ↔
        (blob.ct = [] ∧ kvs.any (fun e => key_is 1 e.1) = false)) ∧
      (b.nonce = [] ↔
        (blob.nonce = [] ∧ kvs.any (fun e => key_is 2 e.1) = false)) ∧
      b.sz = decode_sz_fold blob.sz kvs := by
  induction kvs with
  | nil =>
      intro blob b h
      injection h with h
      subst h
      simp [decode_sz_fold]
  | cons e rest ih =>
      intro blob b h
      obtain ⟨k, v⟩ := e
      rw [largeblob_decode_map] at h
      cases hd : largeblob_do_decode blob k v with
      | none => rw [hd] at h; cases h
      | some b1 =>
          rw [hd] at h
          obtain ⟨ict, inonce, isz⟩ := ih b1 b h
          obtain ⟨sct, snonce, ssz⟩ := do_decode_fields blob k v b1 hd
          refine ⟨?_, ?_, ?_⟩
          · rw [ict, sct, List.any_cons, Bool.or_eq_false_iff]
            tauto
          · rw [inonce, snonce, List.any_cons, Bool.or_eq_false_iff]
            tauto
          · rw [isz, ssz]
            rfl

/-- C7: decoding a single element succeeds exactly when the item is a
definite CBOR map whose iteration yields a ciphertext of at least 16
bytes under key 1, a nonce of exactly 12 bytes under key 2, and a
nonzero in-bounds `origSize` under key 3; entries with non-uint8 or
unrecognized small-integer keys are ignored, while a present recognized
field violating its constraint causes failure. -/
theorem largeblob_decode_iff_spec (item : CborItem) :
    (largeblob_decode item).isSome = largeblob_decode_ok_spec item := by
  cases item with
  | uint w v => rfl
  | bytes d data => rfl
  | array d xs => rfl
  | other => rfl
  | map d kvs =>
      cases d with
      | false => rfl
      | true =>
          have hall := decode_map_isSome kvs largeblob_new
          cases hm : largeblob_decode_map largeblob_new kvs with
          | none =>
              rw [hm] at hall
              simp only [Option.isSome_none] at hall
              have hL : largeblob_decode (CborItem.map true kvs) = none := by
                rw [largeblob_decode, hm]
              rw [hL, largeblob_decode_ok_spec]
              simp [← hall]
          | some b =>
              rw [hm] at hall
              simp only [Option.isSome_some] at hall
              have hL : largeblob_decode (CborItem.map true kvs)
                  = (if b.ct = [] ∨ b.nonce = [] ∨ b.sz = 0 then none
                     else some b) := by
                rw [largeblob_decode, hm]
              rw [hL, largeblob_decode_ok_spec]
              obtain ⟨hct, hnonce, hsz⟩ :=
                decode_map_fields kvs largeblob_new b hm
              have hct1 : b.ct = [] ↔
                  kvs.any (fun e => key_is 1 e.1) = false :=
                ⟨fun hh => (hct.mp hh).2, fun hh => hct.mpr ⟨rfl, hh⟩⟩
              have hnonce1 : b.nonce = [] ↔
                  kvs.any (fun e => key_is 2 e.1) = false :=
                ⟨fun hh => (hnonce.mp hh).2, fun hh => hnonce.mpr ⟨rfl, hh⟩⟩
              have hsz1 : b.sz = decode_sz_fold 0 kvs := hsz
              by_cases hcond : b.ct = [] ∨ b.nonce = [] ∨ b.sz = 0
              · rw [if_pos hcond]
                rcases hcond with h | h | h
                · simp [hct1.mp h]
                · simp [hnonce1.mp h]
                · have h3 : decode_sz_fold 0 kvs = 0 := by rw [← hsz1]; exact h
                  simp [h3]
              · rw [if_neg hcond]
                push_neg at hcond
                obtain ⟨h1, h2, h3⟩ := hcond
                have a1 : kvs.any (fun e => key_is 1 e.1) = true := by
                  cases ha : kvs.any (fun e => key_is 1 e.1)
                  · exact absurd (hct1.mpr ha) h1
                  · rfl
                have a2 : kvs.any (fun e => key_is 2 e.1) = true := by
                  cases ha : kvs.any (fun e => key_is 2 e.1)
                  · exact absurd (hnonce1.mpr ha) h2
                  · rfl
                have a3 : decide (decode_sz_fold 0 kvs ≠ 0) = true :=
                  decide_eq_true (by rw [← hsz1]; exact h3)
                simp [← hall, a1, a2, a3]

/-- C1 (code defect): an assembled 17-byte buffer whose 16-byte digest
trailer is valid — body `0x80`, the definite empty CBOR array — passes
`validate_largeblob_array`, yet the fetch returns `none` (an error)
instead of parsing the body, whatever the CBOR loader would say,
because `largeblob_array_load` demands at least `SHA256_DIGEST_LENGTH`
(32) bytes and strips 32 rather than the 16 the digest check verified. -/
theorem largeblob_fetch_strips_32_not_16 (sha256 : List Nat → List Nat)
    (cload : List Nat → Option CborItem)
    (h : (sha256 [0x80]).length = 32) :
    validate_largeblob_array sha256
        ([0x80] ++ (sha256 [0x80]).take 16) = true ∧
    largeblob_array_get_result sha256 cload
        ([0x80] ++ (sha256 [0x80]).take 16) = none := by
  have ht : ((sha256 [0x80]).take 16).length = 16 := by
    rw [List.length_take, h]
    rfl
  have hlen : ([0x80] ++ (sha256 [0x80]).take 16 : List Nat).length = 17 := by
    rw [List.length_append, ht]
    rfl
  have hval : validate_largeblob_array sha256
      ([0x80] ++ (sha256 [0x80]).take 16) = true := by
    rw [validate_largeblob_array]
    rw [if_neg (by rw [hlen]; norm_num [LARGEBLOB_DIGEST_LENGTH])]
    have h116 : ([0x80] ++ (sha256 [0x80]).take 16 : List Nat).length
        - LARGEBLOB_DIGEST_LENGTH = 1 := by
      rw [hlen]; norm_num [LARGEBLOB_DIGEST_LENGTH]
    rw [h116]
    have htake : ([0x80] ++ (sha256 [0x80]).take 16 : List Nat).take 1
        = [0x80] := rfl
    have hdrop : ([0x80] ++ (sha256 [0x80]).take 16 : List Nat).drop 1
        = (sha256 [0x80]).take 16 := rfl
    rw [htake, hdrop, largeblob_array_digest]
    rw [if_neg (by simp)]
    simp [LARGEBLOB_DIGEST_LENGTH]
  refine ⟨hval, ?_⟩
  rw [largeblob_array_get_result, if_pos hval, largeblob_array_load,
      if_pos (by rw [hlen]; norm_num [SHA256_DIGEST_LENGTH])]

/-- Witness for C1 with a concrete 32-byte stand-in digest function. -/
theorem largeblob_fetch_strips_32_not_16_witness :
    (sha256_stub [0x80]).length = 32 ∧
    validate_largeblob_array sha256_stub
        ([0x80] ++ (sha256_stub [0x80]).take 16) = true ∧
    largeblob_array_get_result sha256_stub cbor_load_stub
        ([0x80] ++ (sha256_stub [0x80]).take 16) = none :=
  ⟨by simp [sha256_stub],
   largeblob_fetch_strips_32_not_16 sha256_stub cbor_load_stub
     (by simp [sha256_stub])⟩
